import Mathlib

/-!
Verification of the job-control core of the tiny shell `tsh`
(src/tshlab-handout/mytest/online.c).

The shallow embedding below translates the C job table and the routines that
manipulate it into Lean.  Machine `int`/`pid_t` values are modelled as `Int`;
console output is modelled as lists of strings returned alongside the state;
OS facilities (`getpgid`, `open`, `dup2`, `execve`, `kill`) are oracle
parameters.  Undefined behaviour (a null-pointer dereference) is modelled by a
dedicated `segv` outcome.
-/

namespace Tsh

/-- Capacity of the job table (`MAXJOBS` in the C source). -/
def MAXJOBS : Nat := 16

/-- Job state `UNDEF` (empty slot). -/
def UNDEF : Int := 0

/-- Job state `FG` (running in foreground). -/
def FG : Int := 1

/-- Job state `BG` (running in background). -/
def BG : Int := 2

/-- Job state `ST` (stopped). -/
def ST : Int := 3

/-- POSIX signal number of SIGINT. -/
def SIGINT : Int := 2

/-- POSIX signal number of SIGTSTP. -/
def SIGTSTP : Int := 20

/-- POSIX signal number of SIGCONT. -/
def SIGCONT : Int := 18

/-- One slot of the job table (`struct job_t`). -/
structure JobT where
  pid : Int
  jid : Int
  state : Int
  cmdline : String
deriving DecidableEq, Repr

/-- The cleared slot produced by `clearjob`. -/
def clearjob : JobT := ⟨0, 0, UNDEF, ""⟩

/-- The global mutable state touched by the job-table routines: the slot array
`job_list` together with the counter `nextjid`. -/
structure Shell where
  job_list : List JobT
  nextjid : Int
deriving DecidableEq, Repr

/-- `initjobs`: all `MAXJOBS` slots cleared. -/
def initjobs : List JobT := List.replicate MAXJOBS clearjob

/-- The state at shell startup: cleared table, `nextjid = 1`. -/
def initShell : Shell := ⟨initjobs, 1⟩

/-- `maxjid`'s scanning loop: `max = m; for each slot, if jid > max, max = jid`. -/
def maxjidFold : List JobT → Int → Int
  | [], m => m
  | j :: rest, m => maxjidFold rest (if j.jid > m then j.jid else m)

/-- `maxjid` - largest allocated job ID (0 when none, since slots start at 0). -/
def maxjid (l : List JobT) : Int := maxjidFold l 0

/-- The update `nextjid++; if (nextjid > MAXJOBS) nextjid = 1;` performed by
`addjob` after assigning a job id. -/
def bumpjid (nj : Int) : Int := if nj + 1 > 16 then 1 else nj + 1

/-- The scanning loop of `addjob`: find the first slot with `pid == 0`,
populate it with the new job (whose `jid` is the current `nextjid`) and
return the updated slot list together with the updated `nextjid`;
`none` when every slot is occupied. -/
def addjobScan : List JobT → Int → Int → Int → String → Option (List JobT × Int)
  | [], _, _, _, _ => none
  | j :: rest, nj, p, st, cmd =>
    if j.pid = 0 then
      some (⟨p, nj, st, cmd⟩ :: rest, bumpjid nj)
    else
      (addjobScan rest nj p st cmd).map (fun r => (j :: r.1, r.2))

/-- `addjob job_list pid state cmdline`.  `v` is the global `verbose` flag and
`pgid` the oracle for `getpgid` (used only in the verbose diagnostic).
Returns the new state, the C return value (`true` = 1), and the lines
printed. -/
def addjob (v : Bool) (pgid : Int → Int) (s : Shell) (p st : Int) (cmd : String) :
    Shell × Bool × List String :=
  if p < 1 then (s, false, [])
  else
    match addjobScan s.job_list s.nextjid p st cmd with
    | some r =>
        (⟨r.1, r.2⟩, true,
          if v then
            ["Added job [" ++ toString s.nextjid ++ "] " ++ toString p ++ " " ++
              toString (pgid p) ++ " " ++ cmd ++ "\n"]
          else [])
    | none => (s, false, ["Tried to create too many jobs\n"])

/-- The scanning loop of `deletejob`: clear the first slot whose `pid`
matches; `none` when no slot matches. -/
def deletejobScan : List JobT → Int → Option (List JobT)
  | [], _ => none
  | j :: rest, p =>
    if j.pid = p then some (clearjob :: rest)
    else (deletejobScan rest p).map (fun r => j :: r)

/-- `deletejob job_list pid`: clear the matching slot and recompute
`nextjid = maxjid(job_list) + 1`; return value `true` = 1 (found). -/
def deletejob (s : Shell) (p : Int) : Shell × Bool :=
  if p < 1 then (s, false)
  else
    match deletejobScan s.job_list p with
    | some l => (⟨l, maxjid l + 1⟩, true)
    | none => (s, false)

/-- `fgpid`: the PID of the first slot in state `FG`, 0 when none. -/
def fgpid : List JobT → Int
  | [] => 0
  | j :: rest => if j.state = FG then j.pid else fgpid rest

/-- Index of the first slot whose `pid` equals `p` (the scan of `getjobpid`). -/
def findPidIdx : List JobT → Int → Option Nat
  | [], _ => none
  | j :: rest, p =>
    if j.pid = p then some 0 else (findPidIdx rest p).map (fun k => k + 1)

/-- Index of the first slot whose `jid` equals `target` (scan of `getjobjid`). -/
def findJidIdx : List JobT → Int → Option Nat
  | [], _ => none
  | j :: rest, target =>
    if j.jid = target then some 0 else (findJidIdx rest target).map (fun k => k + 1)

/-- `getjobpid`, returning the index of the found slot (a model of the
returned pointer); `none` models a NULL result. -/
def getjobpidIdx (l : List JobT) (p : Int) : Option Nat :=
  if p < 1 then none else findPidIdx l p

/-- `getjobjid`, returning the index of the found slot; `none` models NULL. -/
def getjobjidIdx (l : List JobT) (target : Int) : Option Nat :=
  if target < 1 then none else findJidIdx l target

/-- Digit-consuming loop of the C library `atoi`. -/
def atoiDigits : List Char → Int → Int
  | [], acc => acc
  | c :: cs, acc =>
    if c.isDigit then atoiDigits cs (10 * acc + (c.toNat - 48)) else acc

/-- The C library `atoi`: skip leading white-space, optional sign, then read
a digit prefix (0 when none). -/
def atoi (str : String) : Int :=
  let cs := str.toList.dropWhile (fun c => c == ' ' || c == '\t' || c == '\n' || c == '\r')
  match cs with
  | '-' :: rest => -(atoiDigits rest 0)
  | '+' :: rest => atoiDigits rest 0
  | _ => atoiDigits cs 0

/-- Outcome of one `eval` builtin branch: `done` carries the state after the
branch, the text printed, and the `kill` calls issued (target, signal);
`segv` models the undefined behaviour of dereferencing a NULL job pointer
(the text printed before the dereference is recorded). -/
inductive BuiltinResult where
  | done (s : Shell) (out : List String) (kills : List (Int × Int))
  | segv (out : List String)
deriving DecidableEq, Repr

/-- Job resolution shared by the `bg` and `fg` branches of `eval`: a
`%`-prefixed argument is a job id looked up with `getjobjid`, otherwise the
argument is a pid looked up with `getjobpid` (both through `atoi`). -/
def resolveJobArg (l : List JobT) (a : String) : Option Nat :=
  match a.toList with
  | '%' :: rest => getjobjidIdx l (atoi (String.mk rest))
  | _ => getjobpidIdx l (atoi a)

/-- The `BUILTIN_BG` branch of `eval`, on argument vector `argv`
(`argv.length` models `tok.argc`). -/
def builtin_bg (s : Shell) (argv : List String) : BuiltinResult :=
  if argv.length ≠ 2 then .done s ["wrong input"] []
  else
    match resolveJobArg s.job_list (argv.getD 1 "") with
    | none => .segv ["No Such Job\n"]
    | some i =>
      let j := s.job_list.getD i clearjob
      if j.state ≠ ST then
        .done s ["[" ++ toString j.jid ++ "] " ++ toString j.pid ++ " is running now\n"] []
      else
        .done ⟨s.job_list.set i ⟨j.pid, j.jid, BG, j.cmdline⟩, s.nextjid⟩
          ["[" ++ toString j.jid ++ "] (" ++ toString j.pid ++ ") " ++ j.cmdline]
          [(-j.pid, SIGCONT)]

/-- The `BUILTIN_FG` branch of `eval` (the busy-wait on `fgpid` that follows
the state change does not touch the table and is not part of the state
transition). -/
def builtin_fg (s : Shell) (argv : List String) : BuiltinResult :=
  if argv.length ≠ 2 then .done s ["wrong input"] []
  else
    match resolveJobArg s.job_list (argv.getD 1 "") with
    | none => .segv ["No Such Job\n"]
    | some i =>
      let j := s.job_list.getD i clearjob
      if j.state ≠ ST then
        .done s ["[" ++ toString j.jid ++ "] " ++ toString j.pid ++ " is running now\n"] []
      else
        .done ⟨s.job_list.set i ⟨j.pid, j.jid, FG, j.cmdline⟩, s.nextjid⟩ []
          [(-j.pid, SIGCONT)]

/-- One child-status notification as decoded by the `WIF*` macros on the
status word returned by `waitpid`. -/
inductive ChildEvent where
  | exitedNormally (code : Int)
  | stoppedBySignal (sig : Int)
  | terminatedBySignal (sig : Int)
deriving DecidableEq, Repr

/-- Outcome of processing one notification in `sigchld_handler`: either the
shell terminates through `app_error` (internal consistency failure), or it
continues with an updated state and some printed lines. -/
inductive ReapResult where
  | fatal (msg : String)
  | next (s : Shell) (out : List String)
deriving DecidableEq, Repr

/-- One iteration of the reaping loop of `sigchld_handler`, for the reaped
pid `wpid` whose status decodes to `ev`; `v` is the global `verbose` flag. -/
def sigchld_step (v : Bool) (s : Shell) (wpid : Int) (ev : ChildEvent) : ReapResult :=
  match getjobpidIdx s.job_list wpid with
  | none => .fatal "sigchld getjobpid error"
  | some i =>
    let j := s.job_list.getD i clearjob
    match ev with
    | .exitedNormally _ =>
        .next (deletejob s wpid).1
          (if v then
            ["[" ++ toString j.jid ++ "] (" ++ toString j.pid ++ ") " ++ j.cmdline ++ " deleted\n"]
          else [])
    | .stoppedBySignal n =>
        .next ⟨s.job_list.set i ⟨j.pid, j.jid, ST, j.cmdline⟩, s.nextjid⟩
          ["Job [" ++ toString j.jid ++ "] (" ++ toString j.pid ++ ") stopped by signal " ++
            toString n ++ "\n"]
    | .terminatedBySignal n =>
        .next (deletejob s wpid).1
          ["Job [" ++ toString j.jid ++ "] (" ++ toString j.pid ++ ") terminated by signal " ++
            toString n ++ "\n"]

/-- `sigint_handler`: forward SIGINT to the foreground process group.
`killOk` is the oracle for the `kill` system call; the result records the
(unchanged) state, the `kill` calls issued, and whether the handler died in
`unix_error`. -/
def sigint_handler (killOk : Bool) (s : Shell) : Shell × List (Int × Int) × Bool :=
  let fid := fgpid s.job_list
  if fid = 0 then (s, [], false)
  else (s, [(-fid, SIGINT)], !killOk)

/-- `sigtstp_handler`: forward SIGTSTP to the foreground process group. -/
def sigtstp_handler (killOk : Bool) (s : Shell) : Shell × List (Int × Int) × Bool :=
  let fid := fgpid s.job_list
  if fid = 0 then (s, [], false)
  else (s, [(-fid, SIGTSTP)], !killOk)

/-- The parsed command a child receives (relevant fields of
`struct cmdline_tokens`). -/
structure CmdTok where
  argv : List String
  infile : Option String
  outfile : Option String
deriving DecidableEq, Repr

/-- What becomes of the forked child in `eval`: it replaces its image via
`execve`, it terminates via `exit`, or it *returns* from `eval` back into
the shell's read loop (so the child process keeps running as a shell). -/
inductive ChildOutcome where
  | execed (prog : String) (args : List String)
  | exited (code : Int)
  | returned
deriving DecidableEq, Repr

/-- The child branch of `eval` after `fork()` returns 0: set up redirection,
process group and default signal dispositions, then `execve`.  `openOk` and
`dupOk` are oracles for `open`/`dup2`, `execOk` for `execve`.  The printed
error text is returned alongside the outcome (`perror` output is modelled
by its fixed prefix). -/
def child_run (openOk : String → Bool) (dupOk : Bool) (execOk : Bool) (tok : CmdTok) :
    ChildOutcome × List String :=
  match tok.infile with
  | some f =>
    if !openOk f then (.returned, ["Input Error"])
    else if !dupOk then (.returned, ["Dup Error"])
    else child_out openOk dupOk execOk tok
  | none => child_out openOk dupOk execOk tok
where
  child_out (openOk : String → Bool) (dupOk : Bool) (execOk : Bool) (tok : CmdTok) :
      ChildOutcome × List String :=
    match tok.outfile with
    | some f =>
      if !openOk f then (.returned, ["Output Error"])
      else if !dupOk then (.returned, ["Dup Error"])
      else child_exec execOk tok
    | none => child_exec execOk tok
  child_exec (execOk : Bool) (tok : CmdTok) : ChildOutcome × List String :=
    let prog := tok.argv.getD 0 ""
    if execOk then (.execed prog tok.argv, [])
    else (.exited 1, [prog ++ ": Command not found.\n"])

/-- The `switch` on the state field in `listjobs`, including the trailing
padding spaces of each `sprintf` format (`i` is the slot index used by the
internal-error diagnostic). -/
def stateLabel (st : Int) (i : Nat) : String :=
  if st = BG then "Running    "
  else if st = FG then "Foreground "
  else if st = ST then "Stopped    "
  else "listjobs: Internal error: job[" ++ toString i ++ "].state=" ++ toString st ++ " "

/-- The text `listjobs` emits for the live slot `j` at index `i` (the three
`write` calls concatenated, without the terminating newline). -/
def jobLine (j : JobT) (i : Nat) : String :=
  "[" ++ toString j.jid ++ "] (" ++ toString j.pid ++ ") " ++ stateLabel j.state i ++ j.cmdline

/-- The scanning loop of `listjobs`: one line per slot with `pid != 0`,
in slot order. -/
def listjobsLines : List JobT → Nat → List String
  | [], _ => []
  | j :: rest, i =>
    (if j.pid ≠ 0 then [jobLine j i] else []) ++ listjobsLines rest (i + 1)

/-- `listjobs job_list`, as the list of lines written to the output fd. -/
def listjobs (l : List JobT) : List String := listjobsLines l 0

/-- Fold computing the spec-side "max(live job_id)": only slots with a
nonzero pid contribute. -/
def maxLiveJidFold : List JobT → Int → Int
  | [], m => m
  | j :: rest, m => maxLiveJidFold rest (if j.pid ≠ 0 ∧ j.jid > m then j.jid else m)

/-- Modelled from the spec: "max(live job_id)", the largest `job_id` among
live entries (0 when there is none). -/
def maxLiveJid (l : List JobT) : Int := maxLiveJidFold l 0

/-- The line `listjobs` actually produces for a live entry whose state is
`FG`, `BG` or `ST`: the label is padded to 11 characters ("Running" and
"Stopped" are followed by four spaces, "Foreground" by one). -/
def goodLine (j : JobT) : String :=
  "[" ++ toString j.jid ++ "] (" ++ toString j.pid ++ ") " ++
    (if j.state = BG then "Running    "
     else if j.state = FG then "Foreground "
     else "Stopped    ") ++ j.cmdline

/-- Modelled from the spec: the state label claimed for a listing line. -/
def claimLabel (st : Int) : String :=
  if st = BG then "Running" else if st = FG then "Foreground" else "Stopped"

/-- Modelled from the spec: the claimed listing line
`[<job_id>] (<pid>) <state_label>    <command_text>` (label followed by four
spaces). -/
def claimLine (j : JobT) : String :=
  "[" ++ toString j.jid ++ "] (" ++ toString j.pid ++ ") " ++
    claimLabel j.state ++ "    " ++ j.cmdline

/-- Modelled from the spec: the claimed listing, one claimed line per live
entry in slot order. -/
def claimListing (l : List JobT) : List String :=
  (l.filter (fun j => j.pid != 0)).map claimLine

/-- Job-table states reachable from the initialized table by any sequence of
`addjob` and `deletejob` calls. -/
inductive Reach : Shell → Prop where
  | init : Reach initShell
  | add (s : Shell) (v : Bool) (pgid : Int → Int) (p st : Int) (cmd : String) :
      Reach s → Reach (addjob v pgid s p st cmd).1
  | del (s : Shell) (p : Int) : Reach s → Reach (deletejob s p).1

/-- Reachability under the OS pid-freshness guarantee: every `addjob` uses a
pid held by no live entry. -/
inductive FreshReach : Shell → Prop where
  | init : FreshReach initShell
  | add (s : Shell) (v : Bool) (pgid : Int → Int) (p st : Int) (cmd : String) :
      FreshReach s → (∀ j ∈ s.job_list, j.pid = 0 ∨ j.pid ≠ p) →
      FreshReach (addjob v pgid s p st cmd).1
  | del (s : Shell) (p : Int) : FreshReach s → FreshReach (deletejob s p).1

/-- The pids of live entries are pairwise distinct. -/
def livePidsDistinct (l : List JobT) : Prop :=
  l.Pairwise (fun a b => a.pid ≠ 0 → b.pid ≠ 0 → a.pid ≠ b.pid)

/-- A sequence of background `addjob` calls with the given pids (verbose off,
trivial `getpgid` oracle, fixed command text). -/
def addInts (st : Int) (s : Shell) (ps : List Int) : Shell :=
  ps.foldl (fun t p => (addjob false (fun _ => 0) t p st "x").1) s

/-- The state driving the C1 counterexample: 15 foreground-state adds
(job ids 1-15), deletion of pid 102, then adds of pids 116 and 117; the
last add wraps `nextjid` past the capacity and reassigns job id 1. -/
def c1state : Shell :=
  addInts 1 ((deletejob
    (addInts 1 initShell [101, 102, 103, 104, 105, 106, 107, 108, 109, 110,
      111, 112, 113, 114, 115]) 102).1) [116, 117]

/-- The state driving the C8 counterexample: 16 adds fill the table
(job ids 1-16), then pid 101 (job id 1) is deleted, which recomputes
`nextjid` as `maxjid + 1 = 17`. -/
def c8state : Shell :=
  (deletejob
    (addInts 2 initShell [101, 102, 103, 104, 105, 106, 107, 108, 109, 110,
      111, 112, 113, 114, 115, 116]) 101).1

/-- A table with a single foreground job (pid 5, job id 1), used to
instantiate hypotheses concretely. -/
def oneFgShell : Shell := ⟨⟨5, 1, FG, "a"⟩ :: List.replicate 15 clearjob, 2⟩

/-- A table whose only live entry is a foreground job, used to exhibit the
listing format concretely. -/
def c9table : List JobT := ⟨100, 1, FG, "sleep"⟩ :: List.replicate 15 clearjob

theorem addjobScan_none (l : List JobT) (nj p st : Int) (cmd : String)
    (h : ∀ j ∈ l, j.pid ≠ 0) : addjobScan l nj p st cmd = none := by
  induction l with
  | nil => rfl
  | cons j rest ih =>
    simp only [addjobScan]
    rw [if_neg (h j (List.mem_cons_self j rest)),
      ih (fun b hb => h b (List.mem_cons_of_mem j hb))]
    rfl

theorem addjobScan_set (l : List JobT) (nj p st : Int) (cmd : String) (i : Nat)
    (hi : i < l.length) (h0 : (l.getD i clearjob).pid = 0)
    (hmin : ∀ k, k < i → (l.getD k clearjob).pid ≠ 0) :
    addjobScan l nj p st cmd = some (l.set i ⟨p, nj, st, cmd⟩, bumpjid nj) := by
  induction l generalizing i with
  | nil => exact absurd hi (Nat.not_lt_zero i)
  | cons j rest ih =>
    cases i with
    | zero =>
      rw [List.getD_cons_zero] at h0
      simp only [addjobScan, List.set]
      rw [if_pos h0]
    | succ m =>
      have hj : j.pid ≠ 0 := by
        have h := hmin 0 (Nat.succ_pos m)
        rwa [List.getD_cons_zero] at h
      rw [List.getD_cons_succ] at h0
      simp only [addjobScan, List.set]
      rw [if_neg hj, ih m (by simpa using hi) h0 (fun k hk => by
        have h := hmin (k + 1) (Nat.succ_lt_succ hk)
        rwa [List.getD_cons_succ] at h)]
      rfl

theorem addjobScan_snd (l : List JobT) (nj p st : Int) (cmd : String)
    (r : List JobT × Int) (h : addjobScan l nj p st cmd = some r) :
    r.2 = bumpjid nj := by
  induction l generalizing r with
  | nil => exact absurd h (by simp [addjobScan])
  | cons j rest ih =>
    simp only [addjobScan] at h
    by_cases hj : j.pid = 0
    · rw [if_pos hj] at h
      injection h with h
      rw [← h]
    · rw [if_neg hj] at h
      cases hres : addjobScan rest nj p st cmd with
      | none => rw [hres] at h; exact absurd h (by simp)
      | some r' =>
        rw [hres] at h
        injection h with h
        rw [← h]
        exact ih r' hres

theorem addjobScan_mem (l : List JobT) (nj p st : Int) (cmd : String)
    (r : List JobT × Int) (h : addjobScan l nj p st cmd = some r) :
    ∀ b ∈ r.1, b = (⟨p, nj, st, cmd⟩ : JobT) ∨ b ∈ l := by
  induction l generalizing r with
  | nil => exact absurd h (by simp [addjobScan])
  | cons j rest ih =>
    simp only [addjobScan] at h
    by_cases hj : j.pid = 0
    · rw [if_pos hj] at h
      injection h with h
      subst h
      intro b hb
      rcases List.mem_cons.mp hb with h | h
      · exact Or.inl h
      · exact Or.inr (List.mem_cons_of_mem j h)
    · rw [if_neg hj] at h
      cases hres : addjobScan rest nj p st cmd with
      | none => rw [hres] at h; exact absurd h (by simp)
      | some r' =>
        rw [hres] at h
        injection h with h
        subst h
        intro b hb
        rcases List.mem_cons.mp hb with h | h
        · exact Or.inr (h ▸ List.mem_cons_self j rest)
        · rcases ih r' hres b h with h2 | h2
          · exact Or.inl h2
          · exact Or.inr (List.mem_cons_of_mem j h2)

theorem deletejobScan_none (l : List JobT) (p : Int)
    (h : ∀ j ∈ l, j.pid ≠ p) : deletejobScan l p = none := by
  induction l with
  | nil => rfl
  | cons j rest ih =>
    simp only [deletejobScan]
    rw [if_neg (h j (List.mem_cons_self j rest)),
      ih (fun b hb => h b (List.mem_cons_of_mem j hb))]
    rfl

theorem deletejobScan_set (l : List JobT) (p : Int) (i : Nat)
    (hi : i < l.length) (hmatch : (l.getD i clearjob).pid = p)
    (hmin : ∀ k, k < i → (l.getD k clearjob).pid ≠ p) :
    deletejobScan l p = some (l.set i clearjob) := by
  induction l generalizing i with
  | nil => exact absurd hi (Nat.not_lt_zero i)
  | cons j rest ih =>
    cases i with
    | zero =>
      rw [List.getD_cons_zero] at hmatch
      simp only [deletejobScan, List.set]
      rw [if_pos hmatch]
    | succ m =>
      have hj : j.pid ≠ p := by
        have h := hmin 0 (Nat.succ_pos m)
        rwa [List.getD_cons_zero] at h
      rw [List.getD_cons_succ] at hmatch
      simp only [deletejobScan, List.set]
      rw [if_neg hj, ih m (by simpa using hi) hmatch (fun k hk => by
        have h := hmin (k + 1) (Nat.succ_lt_succ hk)
        rwa [List.getD_cons_succ] at h)]
      rfl

theorem deletejobScan_mem (l : List JobT) (p : Int) (l' : List JobT)
    (h : deletejobScan l p = some l') :
    ∀ b ∈ l', b = clearjob ∨ b ∈ l := by
  induction l generalizing l' with
  | nil => exact absurd h (by simp [deletejobScan])
  | cons j rest ih =>
    simp only [deletejobScan] at h
    by_cases hj : j.pid = p
    · rw [if_pos hj] at h
      injection h with h
      subst h
      intro b hb
      rcases List.mem_cons.mp hb with h | h
      · exact Or.inl h
      · exact Or.inr (List.mem_cons_of_mem j h)
    · rw [if_neg hj] at h
      cases hres : deletejobScan rest p with
      | none => rw [hres] at h; exact absurd h (by simp)
      | some r' =>
        rw [hres] at h
        injection h with h
        subst h
        intro b hb
        rcases List.mem_cons.mp hb with h | h
        · exact Or.inr (h ▸ List.mem_cons_self j rest)
        · rcases ih r' hres b h with h2 | h2
          · exact Or.inl h2
          · exact Or.inr (List.mem_cons_of_mem j h2)

theorem maxjidFold_ge (l : List JobT) (m : Int) : m ≤ maxjidFold l m := by
  induction l generalizing m with
  | nil => exact le_refl m
  | cons j rest ih =>
    simp only [maxjidFold]
    by_cases hj : j.jid > m
    · rw [if_pos hj]
      exact le_trans (le_of_lt hj) (ih j.jid)
    · rw [if_neg hj]
      exact ih m

theorem maxjidFold_live (l : List JobT) (m : Int) (hm : 0 ≤ m)
    (hd : ∀ j ∈ l, j.pid = 0 → j.jid = 0) :
    maxjidFold l m = maxLiveJidFold l m := by
  induction l generalizing m with
  | nil => rfl
  | cons j rest ih =>
    simp only [maxjidFold, maxLiveJidFold]
    by_cases hp : j.pid = 0
    · have hz : j.jid = 0 := hd j (List.mem_cons_self j rest) hp
      have hnot : ¬ j.jid > m := by rw [hz]; omega
      rw [if_neg hnot, if_neg (fun hc => hnot hc.2)]
      exact ih m hm (fun b hb => hd b (List.mem_cons_of_mem j hb))
    · by_cases hj : j.jid > m
      · rw [if_pos hj, if_pos ⟨hp, hj⟩]
        exact ih j.jid (by omega) (fun b hb => hd b (List.mem_cons_of_mem j hb))
      · rw [if_neg hj, if_neg (fun hc => hj hc.2)]
        exact ih m hm (fun b hb => hd b (List.mem_cons_of_mem j hb))

theorem maxjid_eq_maxLiveJid (l : List JobT)
    (hd : ∀ j ∈ l, j.pid = 0 → j.jid = 0) :
    maxjid l = maxLiveJid l :=
  maxjidFold_live l 0 le_rfl hd

/-- Claim C5: `addjob` populates the first empty slot (lowest index with
pid 0) with the current next-job-id and returns success; on a full table it
reports the table-full condition and returns failure with no slot modified;
and for every non-positive pid it returns failure without modifying the
table. -/
theorem addjob_spec (v : Bool) (pgid : Int → Int) (s : Shell) (p st : Int) (cmd : String) :
    (p < 1 → addjob v pgid s p st cmd = (s, false, [])) ∧
    (1 ≤ p → (∀ j ∈ s.job_list, j.pid ≠ 0) →
      addjob v pgid s p st cmd = (s, false, ["Tried to create too many jobs\n"])) ∧
    (∀ i, 1 ≤ p → i < s.job_list.length → (s.job_list.getD i clearjob).pid = 0 →
      (∀ k, k < i → (s.job_list.getD k clearjob).pid ≠ 0) →
      addjob v pgid s p st cmd =
        (⟨s.job_list.set i ⟨p, s.nextjid, st, cmd⟩, bumpjid s.nextjid⟩, true,
          if v then
            ["Added job [" ++ toString s.nextjid ++ "] " ++ toString p ++ " " ++
              toString (pgid p) ++ " " ++ cmd ++ "\n"]
          else [])) := by
  refine ⟨?_, ?_, ?_⟩
  · intro hp
    unfold addjob
    rw [if_pos hp]
  · intro hp hfull
    unfold addjob
    rw [if_neg (by omega), addjobScan_none s.job_list s.nextjid p st cmd hfull]
  · intro i hp hi h0 hmin
    unfold addjob
    rw [if_neg (by omega), addjobScan_set s.job_list s.nextjid p st cmd i hi h0 hmin]

/-- Witness for C5: adding pid 101 to the freshly initialized table fills
slot 0 with job id 1 and succeeds. -/
theorem addjob_spec_witness :
    addjob false (fun _ => 0) initShell 101 2 "go" =
      (⟨initShell.job_list.set 0 ⟨101, 1, 2, "go"⟩, 2⟩, true, []) := by
  have h := (addjob_spec false (fun _ => 0) initShell 101 2 "go").2.2 0 (by omega)
    (by decide) (by decide) (fun k hk => absurd hk (Nat.not_lt_zero k))
  exact h

/-- Claim C10: `deletejob` on a pid matching no live entry (including every
non-positive pid) returns not-found and leaves every slot and the
next-job-id counter unchanged. -/
theorem deletejob_frame (s : Shell) (p : Int)
    (h : p < 1 ∨ ∀ j ∈ s.job_list, j.pid ≠ p) :
    deletejob s p = (s, false) := by
  unfold deletejob
  by_cases hp : p < 1
  · rw [if_pos hp]
  · rcases h with h | h
    · exact absurd h hp
    · rw [if_neg hp, deletejobScan_none s.job_list p h]

/-- Witness for C10: deleting pid 5 from the initialized (empty) table is a
no-op returning not-found. -/
theorem deletejob_frame_witness : deletejob initShell 5 = (initShell, false) :=
  deletejob_frame initShell 5 (Or.inr (by decide))

/-- Claim C6: `deletejob` on a pid held by a live entry clears exactly the
first matching slot, recomputes `nextjid` as the maximum live job id plus
one over the remaining entries, and returns found. -/
theorem deletejob_spec (s : Shell) (p : Int) (i : Nat) (hp : 1 ≤ p)
    (hi : i < s.job_list.length) (hmatch : (s.job_list.getD i clearjob).pid = p)
    (hmin : ∀ k, k < i → (s.job_list.getD k clearjob).pid ≠ p)
    (hdead : ∀ j ∈ s.job_list, j.pid = 0 → j.jid = 0) :
    deletejob s p =
      (⟨s.job_list.set i clearjob, maxjid (s.job_list.set i clearjob) + 1⟩, true) ∧
    maxjid (s.job_list.set i clearjob) = maxLiveJid (s.job_list.set i clearjob) := by
  constructor
  · unfold deletejob
    rw [if_neg (by omega), deletejobScan_set s.job_list p i hi hmatch hmin]
  · apply maxjid_eq_maxLiveJid
    intro j hj hp0
    rcases List.mem_or_eq_of_mem_set hj with h | h
    · exact hdead j h hp0
    · subst h
      rfl

/-- Witness for C6: deleting the sole job (pid 5) of `oneFgShell` clears
slot 0 and resets the counter to the maximum live job id plus one. -/
theorem deletejob_spec_witness :
    deletejob oneFgShell 5 =
      (⟨oneFgShell.job_list.set 0 clearjob,
        maxjid (oneFgShell.job_list.set 0 clearjob) + 1⟩, true) ∧
    maxjid (oneFgShell.job_list.set 0 clearjob) =
      maxLiveJid (oneFgShell.job_list.set 0 clearjob) :=
  deletejob_spec oneFgShell 5 0 (by omega) (by decide) (by decide)
    (fun k hk => absurd hk (Nat.not_lt_zero k)) (by decide)

theorem findPidIdx_spec (l : List JobT) (p : Int) (i : Nat)
    (h : findPidIdx l p = some i) :
    i < l.length ∧ (l.getD i clearjob).pid = p ∧
      ∀ k, k < i → (l.getD k clearjob).pid ≠ p := by
  induction l generalizing i with
  | nil => exact absurd h (by simp [findPidIdx])
  | cons j rest ih =>
    simp only [findPidIdx] at h
    by_cases hj : j.pid = p
    · rw [if_pos hj] at h
      injection h with h
      subst h
      exact ⟨Nat.succ_pos _, by rwa [List.getD_cons_zero],
        fun k hk => absurd hk (Nat.not_lt_zero k)⟩
    · rw [if_neg hj] at h
      cases hres : findPidIdx rest p with
      | none => rw [hres] at h; exact absurd h (by simp)
      | some m =>
        rw [hres] at h
        injection h with h
        subst h
        obtain ⟨h1, h2, h3⟩ := ih m hres
        refine ⟨Nat.succ_lt_succ h1, by rwa [List.getD_cons_succ], ?_⟩
        intro k hk
        cases k with
        | zero => rwa [List.getD_cons_zero]
        | succ k' =>
          rw [List.getD_cons_succ]
          exact h3 k' (Nat.lt_of_succ_lt_succ hk)

theorem getjobpidIdx_some (l : List JobT) (p : Int) (i : Nat)
    (h : getjobpidIdx l p = some i) :
    1 ≤ p ∧ findPidIdx l p = some i := by
  unfold getjobpidIdx at h
  by_cases hp : p < 1
  · rw [if_pos hp] at h
    exact absurd h (by simp)
  · rw [if_neg hp] at h
    exact ⟨by omega, h⟩

theorem deletejob_at_found (s : Shell) (p : Int) (i : Nat)
    (h : getjobpidIdx s.job_list p = some i) :
    deletejob s p =
      (⟨s.job_list.set i clearjob, maxjid (s.job_list.set i clearjob) + 1⟩, true) := by
  obtain ⟨hp, hfind⟩ := getjobpidIdx_some s.job_list p i h
  obtain ⟨hi, hmatch, hmin⟩ := findPidIdx_spec s.job_list p i hfind
  unfold deletejob
  rw [if_neg (by omega), deletejobScan_set s.job_list p i hi hmatch hmin]

/-- Claim C3: for every notification processed by `sigchld_handler`, a
normal exit removes the entry (verbose-only diagnostic); a stop sets the
entry's state to `ST` and prints the stop message regardless of the verbose
flag; a signal-termination prints the termination message and removes the
entry; and a reaped pid with no table entry aborts the shell with an
internal consistency error. -/
theorem sigchld_spec (v : Bool) (s : Shell) (p : Int) (ev : ChildEvent) :
    (getjobpidIdx s.job_list p = none →
      sigchld_step v s p ev = .fatal "sigchld getjobpid error") ∧
    (∀ i, getjobpidIdx s.job_list p = some i →
      (∀ c, ev = .exitedNormally c →
        sigchld_step v s p ev = .next
          ⟨s.job_list.set i clearjob, maxjid (s.job_list.set i clearjob) + 1⟩
          (if v then
            ["[" ++ toString (s.job_list.getD i clearjob).jid ++ "] (" ++
              toString (s.job_list.getD i clearjob).pid ++ ") " ++
              (s.job_list.getD i clearjob).cmdline ++ " deleted\n"]
          else [])) ∧
      (∀ n, ev = .stoppedBySignal n →
        sigchld_step v s p ev = .next
          ⟨s.job_list.set i ⟨(s.job_list.getD i clearjob).pid,
            (s.job_list.getD i clearjob).jid, ST,
            (s.job_list.getD i clearjob).cmdline⟩, s.nextjid⟩
          ["Job [" ++ toString (s.job_list.getD i clearjob).jid ++ "] (" ++
            toString (s.job_list.getD i clearjob).pid ++ ") stopped by signal " ++
            toString n ++ "\n"]) ∧
      (∀ n, ev = .terminatedBySignal n →
        sigchld_step v s p ev = .next
          ⟨s.job_list.set i clearjob, maxjid (s.job_list.set i clearjob) + 1⟩
          ["Job [" ++ toString (s.job_list.getD i clearjob).jid ++ "] (" ++
            toString (s.job_list.getD i clearjob).pid ++ ") terminated by signal " ++
            toString n ++ "\n"])) := by
  constructor
  · intro h
    unfold sigchld_step
    rw [h]
  · intro i hsome
    refine ⟨?_, ?_, ?_⟩
    · intro c hev
      subst hev
      unfold sigchld_step
      rw [hsome, deletejob_at_found s p i hsome]
    · intro n hev
      subst hev
      unfold sigchld_step
      rw [hsome]
    · intro n hev
      subst hev
      unfold sigchld_step
      rw [hsome, deletejob_at_found s p i hsome]

/-- Witness for C3: stopping the sole job of `oneFgShell` by signal 20 sets
its state to `ST` and prints the stop message with verbose off. -/
theorem sigchld_spec_witness :
    sigchld_step false oneFgShell 5 (ChildEvent.stoppedBySignal 20) =
      .next ⟨⟨5, 1, ST, "a"⟩ :: List.replicate 15 clearjob, 2⟩
        ["Job [1] (5) stopped by signal 20\n"] := by
  rw [((sigchld_spec false oneFgShell 5 (ChildEvent.stoppedBySignal 20)).2 0
    (by decide)).2.1 20 rfl]
  decide

/-- Claim C7: each forwarder does nothing when there is no foreground job
and otherwise issues its signal to the negative of the foreground pid; in
both cases the job table is left unchanged. -/
theorem forwarders_spec (k : Bool) (s : Shell) :
    ((sigint_handler k s).1 = s ∧ (sigtstp_handler k s).1 = s) ∧
    (fgpid s.job_list = 0 →
      sigint_handler k s = (s, [], false) ∧ sigtstp_handler k s = (s, [], false)) ∧
    (fgpid s.job_list ≠ 0 →
      sigint_handler k s = (s, [(-fgpid s.job_list, SIGINT)], !k) ∧
      sigtstp_handler k s = (s, [(-fgpid s.job_list, SIGTSTP)], !k)) := by
  by_cases hc : fgpid s.job_list = 0
  · refine ⟨⟨?_, ?_⟩, fun h => ⟨?_, ?_⟩, fun h => absurd hc h⟩ <;>
      simp [sigint_handler, sigtstp_handler, hc]
  · refine ⟨⟨?_, ?_⟩, fun h => absurd h hc, fun h => ⟨?_, ?_⟩⟩ <;>
      simp [sigint_handler, sigtstp_handler, hc]

/-- Witness for C7: with a foreground job the interrupt forwarder targets
its process group; with none the suspend forwarder does nothing. -/
theorem forwarders_spec_witness :
    sigint_handler true oneFgShell = (oneFgShell, [(-5, SIGINT)], false) ∧
    sigtstp_handler true initShell = (initShell, [], false) := by
  constructor
  · exact ((forwarders_spec true oneFgShell).2.2 (by decide)).1
  · exact ((forwarders_spec true initShell).2.1 (by decide)).2

/-- Claim C2 (code defect): when the `bg` or `fg` argument resolves to no
live job, the branch prints "No Such Job" but, lacking a `return`, goes on
to dereference the NULL job pointer (`stjob->state`), which is a crash, not
a clean abort. -/
theorem bgfg_nojob_segv :
    builtin_bg initShell ["bg", "%1"] = .segv ["No Such Job\n"] ∧
    builtin_fg initShell ["fg", "%1"] = .segv ["No Such Job\n"] := by
  decide

/-- Claim C4 (code defect): when opening the input-redirection file fails in
the forked child, the child prints the error and then merely returns from
`eval`, falling back into the shell's read loop instead of terminating. -/
theorem child_openfail_returns :
    child_run (fun _ => false) true true ⟨["/bin/cat"], some "nofile", none⟩ =
      (.returned, ["Input Error"]) := by
  decide

/-- Claim C9 counterexample: for a live Foreground entry the emitted line
has a single space between "Foreground" and the command text, so the
listing does not match the claimed uniform `<label>    <cmdline>` shape. -/
theorem listjobs_claim_cex : listjobs c9table ≠ claimListing c9table := by
  decide

theorem listjobsLines_good (l : List JobT) (i : Nat)
    (h : ∀ j ∈ l, j.pid ≠ 0 → j.state = FG ∨ j.state = BG ∨ j.state = ST) :
    listjobsLines l i = (l.filter (fun j => j.pid != 0)).map goodLine := by
  induction l generalizing i with
  | nil => rfl
  | cons j rest ih =>
    by_cases hp : j.pid = 0
    · have hfalse : (j.pid != 0) = false := by simp [hp]
      simp only [listjobsLines, List.filter_cons, hfalse, if_neg (fun hc : j.pid ≠ 0 => hc hp),
        Bool.false_eq_true, if_false, List.nil_append]
      exact ih (i + 1) (fun b hb h2 => h b (List.mem_cons_of_mem j hb) h2)
    · have htrue : (j.pid != 0) = true := by simp [hp]
      have hline : jobLine j i = goodLine j := by
        rcases h j (List.mem_cons_self j rest) hp with h1 | h1 | h1 <;>
          simp [jobLine, goodLine, stateLabel, h1, FG, BG, ST]
      simp only [listjobsLines, List.filter_cons, htrue, if_pos hp, if_true, List.map_cons,
        List.singleton_append, hline]
      rw [ih (i + 1) (fun b hb h2 => h b (List.mem_cons_of_mem j hb) h2)]

/-- Claim C9 amended: `listjobs` emits one line per live entry in slot order
and none for empty slots, each of the form `[jid] (pid) <label><cmdline>`
where the label is padded to 11 characters — "Running    " for Background,
"Foreground " for Foreground, "Stopped    " for Stopped — provided every
live entry is in one of those three states. -/
theorem listjobs_spec (l : List JobT)
    (h : ∀ j ∈ l, j.pid ≠ 0 → j.state = FG ∨ j.state = BG ∨ j.state = ST) :
    listjobs l = (l.filter (fun j => j.pid != 0)).map goodLine :=
  listjobsLines_good l 0 h

/-- Witness for C9: a table holding one background job lists exactly one
"Running"-labelled line. -/
theorem listjobs_spec_witness :
    listjobs (⟨7, 2, BG, "x"⟩ :: List.replicate 15 clearjob) = ["[2] (7) Running    x"] := by
  rw [listjobs_spec (⟨7, 2, BG, "x"⟩ :: List.replicate 15 clearjob) (by decide)]
  decide

theorem addjobScan_pairwise (l : List JobT) (nj p st : Int) (cmd : String)
    (r : List JobT × Int) (h : addjobScan l nj p st cmd = some r)
    (fresh : ∀ j ∈ l, j.pid = 0 ∨ j.pid ≠ p) (hp : livePidsDistinct l) :
    livePidsDistinct r.1 := by
  unfold livePidsDistinct at hp ⊢
  induction l generalizing r with
  | nil => exact absurd h (by simp [addjobScan])
  | cons j rest ih =>
    rw [List.pairwise_cons] at hp
    simp only [addjobScan] at h
    by_cases hj : j.pid = 0
    · rw [if_pos hj] at h
      injection h with h
      subst h
      refine List.Pairwise.cons ?_ hp.2
      intro b hb hpne hbne
      rcases fresh b (List.mem_cons_of_mem j hb) with h2 | h2
      · exact absurd h2 hbne
      · exact fun he => h2 he.symm
    · rw [if_neg hj] at h
      cases hres : addjobScan rest nj p st cmd with
      | none => rw [hres] at h; exact absurd h (by simp)
      | some r' =>
        rw [hres] at h
        injection h with h
        subst h
        refine List.Pairwise.cons ?_
          (ih r' hres (fun b hb => fresh b (List.mem_cons_of_mem j hb)) hp.2)
        intro b hb
        rcases addjobScan_mem rest nj p st cmd r' hres b hb with h2 | h2
        · subst h2
          intro hj0 hb0
          rcases fresh j (List.mem_cons_self j rest) with h3 | h3
          · exact absurd h3 hj0
          · exact h3
        · exact hp.1 b h2

theorem deletejobScan_pairwise (l : List JobT) (p : Int) (l' : List JobT)
    (h : deletejobScan l p = some l') (hp : livePidsDistinct l) :
    livePidsDistinct l' := by
  unfold livePidsDistinct at hp ⊢
  induction l generalizing l' with
  | nil => exact absurd h (by simp [deletejobScan])
  | cons j rest ih =>
    rw [List.pairwise_cons] at hp
    simp only [deletejobScan] at h
    by_cases hj : j.pid = p
    · rw [if_pos hj] at h
      injection h with h
      subst h
      refine List.Pairwise.cons ?_ hp.2
      intro b hb h0 hb0
      exact absurd rfl h0
    · rw [if_neg hj] at h
      cases hres : deletejobScan rest p with
      | none => rw [hres] at h; exact absurd h (by simp)
      | some r' =>
        rw [hres] at h
        injection h with h
        subst h
        refine List.Pairwise.cons ?_ (ih r' hres hp.2)
        intro b hb
        rcases deletejobScan_mem rest p r' hres b hb with h2 | h2
        · subst h2
          intro hj0 hb0
          exact absurd rfl hb0
        · exact hp.1 b h2

/-- Claim C1 amended: under the OS pid-freshness guarantee (every `addjob`
is called with a pid held by no live entry), the pids of live entries stay
pairwise distinct in every reachable state.  (The job-id uniqueness and
at-most-one-Foreground parts of the original claim fail; see the
counterexample.) -/
theorem fresh_pids_distinct (s : Shell) (h : FreshReach s) :
    livePidsDistinct s.job_list := by
  induction h with
  | init =>
    unfold livePidsDistinct
    decide
  | add s v pgid p st cmd hs fresh ih =>
    by_cases hp : p < 1
    · have hz : addjob v pgid s p st cmd = (s, false, []) := by
        unfold addjob
        rw [if_pos hp]
      rw [hz]
      exact ih
    · cases hres : addjobScan s.job_list s.nextjid p st cmd with
      | none =>
        have he : addjob v pgid s p st cmd = (s, false, ["Tried to create too many jobs\n"]) := by
          unfold addjob
          rw [if_neg hp, hres]
        rw [he]
        exact ih
      | some r =>
        have he : (addjob v pgid s p st cmd).1 = ⟨r.1, r.2⟩ := by
          unfold addjob
          rw [if_neg hp, hres]
        rw [he]
        exact addjobScan_pairwise s.job_list s.nextjid p st cmd r hres fresh ih
  | del s p hs ih =>
    by_cases hp : p < 1
    · have hz : deletejob s p = (s, false) := by
        unfold deletejob
        rw [if_pos hp]
      rw [hz]
      exact ih
    · cases hres : deletejobScan s.job_list p with
      | none =>
        have he : deletejob s p = (s, false) := by
          unfold deletejob
          rw [if_neg hp, hres]
        rw [he]
        exact ih
      | some l' =>
        have he : (deletejob s p).1 = ⟨l', maxjid l' + 1⟩ := by
          unfold deletejob
          rw [if_neg hp, hres]
        rw [he]
        exact deletejobScan_pairwise s.job_list p l' hres ih

/-- Witness for the amended C1: after a fresh add to the initialized
table, the live pids are pairwise distinct. -/
theorem fresh_pids_distinct_witness :
    livePidsDistinct (addjob false (fun _ => 0) initShell 101 1 "x").1.job_list :=
  fresh_pids_distinct _
    (FreshReach.add initShell false (fun _ => 0) 101 1 "x" FreshReach.init (by decide))

theorem reach_addInts (st : Int) (ps : List Int) (s : Shell) (h : Reach s) :
    Reach (addInts st s ps) := by
  induction ps generalizing s with
  | nil => exact h
  | cons p rest ih =>
    exact ih ((addjob false (fun _ => 0) s p st "x").1)
      (Reach.add s false (fun _ => 0) p st "x" h)

set_option maxRecDepth 10000 in
/-- Claim C1 counterexample: `c1state` is reachable from the initialized
table by `addjob`/`deletejob` calls with pairwise distinct (fresh) pids,
yet its slots 0 and 15 hold two distinct live pids that share job id 1
(the counter wrapped at the capacity and `addjob` reassigned a live id),
and slots 0 and 2 hold two distinct live entries both in Foreground
state. -/
theorem jobtable_uniqueness_cex :
    Reach c1state ∧
    ((c1state.job_list.getD 0 clearjob).pid ≠ 0 ∧
     (c1state.job_list.getD 15 clearjob).pid ≠ 0 ∧
     (c1state.job_list.getD 0 clearjob).pid ≠ (c1state.job_list.getD 15 clearjob).pid ∧
     (c1state.job_list.getD 0 clearjob).jid = 1 ∧
     (c1state.job_list.getD 15 clearjob).jid = 1 ∧
     (c1state.job_list.getD 2 clearjob).pid ≠ 0 ∧
     (c1state.job_list.getD 0 clearjob).state = FG ∧
     (c1state.job_list.getD 2 clearjob).state = FG) :=
  ⟨reach_addInts 1 [116, 117] _
      (Reach.del _ 102 (reach_addInts 1 _ initShell Reach.init)),
    by decide⟩

theorem bumpjid_bounds (nj : Int) (h : 1 ≤ nj) :
    1 ≤ bumpjid nj ∧ bumpjid nj ≤ 16 := by
  unfold bumpjid
  by_cases hc : nj + 1 > 16
  · rw [if_pos hc]
    omega
  · rw [if_neg hc]
    omega

theorem reach_nextjid_pos (s : Shell) (h : Reach s) : 1 ≤ s.nextjid := by
  induction h with
  | init => decide
  | add s v pgid p st cmd hs ih =>
    by_cases hp : p < 1
    · have hz : addjob v pgid s p st cmd = (s, false, []) := by
        unfold addjob
        rw [if_pos hp]
      rw [hz]
      exact ih
    · cases hres : addjobScan s.job_list s.nextjid p st cmd with
      | none =>
        have he : addjob v pgid s p st cmd = (s, false, ["Tried to create too many jobs\n"]) := by
          unfold addjob
          rw [if_neg hp, hres]
        rw [he]
        exact ih
      | some r =>
        have he : (addjob v pgid s p st cmd).1 = ⟨r.1, r.2⟩ := by
          unfold addjob
          rw [if_neg hp, hres]
        rw [he]
        show 1 ≤ r.2
        rw [addjobScan_snd s.job_list s.nextjid p st cmd r hres]
        exact (bumpjid_bounds s.nextjid ih).1
  | del s p hs ih =>
    by_cases hp : p < 1
    · have hz : deletejob s p = (s, false) := by
        unfold deletejob
        rw [if_pos hp]
      rw [hz]
      exact ih
    · cases hres : deletejobScan s.job_list p with
      | none =>
        have he : deletejob s p = (s, false) := by
          unfold deletejob
          rw [if_neg hp, hres]
        rw [he]
        exact ih
      | some l' =>
        have he : (deletejob s p).1 = ⟨l', maxjid l' + 1⟩ := by
          unfold deletejob
          rw [if_neg hp, hres]
        rw [he]
        show 1 ≤ maxjid l' + 1
        have h0 := maxjidFold_ge l' 0
        unfold maxjid
        omega

/-- Claim C8 amended: in every reachable state the counter is at least 1;
after every *successful* add it lies in [1, 16] (wrapping to 1 past the
capacity); and after every removal it equals `maxjid + 1` — which, as the
counterexample shows, can exceed the capacity. -/
theorem nextjid_bounds (s : Shell) (h : Reach s) :
    1 ≤ s.nextjid ∧
    (∀ v pgid p st cmd, (addjob v pgid s p st cmd).2.1 = true →
      1 ≤ (addjob v pgid s p st cmd).1.nextjid ∧
        (addjob v pgid s p st cmd).1.nextjid ≤ 16) ∧
    (∀ p, (deletejob s p).2 = true →
      (deletejob s p).1.nextjid = maxjid (deletejob s p).1.job_list + 1) := by
  refine ⟨reach_nextjid_pos s h, ?_, ?_⟩
  · intro v pgid p st cmd hsucc
    by_cases hp : p < 1
    · have hz : addjob v pgid s p st cmd = (s, false, []) := by
        unfold addjob
        rw [if_pos hp]
      rw [hz] at hsucc
      exact Bool.noConfusion hsucc
    · cases hres : addjobScan s.job_list s.nextjid p st cmd with
      | none =>
        have he : addjob v pgid s p st cmd = (s, false, ["Tried to create too many jobs\n"]) := by
          unfold addjob
          rw [if_neg hp, hres]
        rw [he] at hsucc
        exact Bool.noConfusion hsucc
      | some r =>
        have he : (addjob v pgid s p st cmd).1 = ⟨r.1, r.2⟩ := by
          unfold addjob
          rw [if_neg hp, hres]
        rw [he]
        show 1 ≤ r.2 ∧ r.2 ≤ 16
        rw [addjobScan_snd s.job_list s.nextjid p st cmd r hres]
        exact bumpjid_bounds s.nextjid (reach_nextjid_pos s h)
  · intro p hsucc
    by_cases hp : p < 1
    · have hz : deletejob s p = (s, false) := by
        unfold deletejob
        rw [if_pos hp]
      rw [hz] at hsucc
      exact Bool.noConfusion hsucc
    · cases hres : deletejobScan s.job_list p with
      | none =>
        have he : deletejob s p = (s, false) := by
          unfold deletejob
          rw [if_neg hp, hres]
        rw [he] at hsucc
        exact Bool.noConfusion hsucc
      | some l' =>
        have he : deletejob s p = (⟨l', maxjid l' + 1⟩, true) := by
          unfold deletejob
          rw [if_neg hp, hres]
        rw [he]

/-- Witness for the amended C8: a successful add from the initial state
keeps the counter within the capacity, and a removal recomputes it as
`maxjid + 1`. -/
theorem nextjid_bounds_witness :
    (addjob false (fun _ => 0) initShell 101 2 "x").1.nextjid ≤ 16 ∧
    (deletejob oneFgShell 5).1.nextjid = maxjid (deletejob oneFgShell 5).1.job_list + 1 := by
  constructor
  · exact ((nextjid_bounds initShell Reach.init).2.1 false (fun _ => 0) 101 2 "x" (by decide)).2
  · exact (nextjid_bounds oneFgShell
      (Reach.add initShell false (fun _ => 0) 5 1 "a" Reach.init)).2.2 5 (by decide)

/-- Claim C8 counterexample: `c8state` is reachable (fill the table with 16
jobs, then delete the job with id 1) and its counter is 17, exceeding the
capacity 16. -/
theorem nextjid_cap_cex :
    Reach c8state ∧ c8state.nextjid = 17 ∧ ¬ c8state.nextjid ≤ 16 :=
  ⟨Reach.del _ 101 (reach_addInts 2 _ initShell Reach.init), by decide, by decide⟩

end Tsh
